import Mathlib

/-!
Verification of the arXiv image crawler (`crwal..py`): a shallow embedding of
the catalog lister (`process_arxiv_files`), the fetcher
(`download_and_extract_images`), the archive walkers (`extract_from_tar`,
`extract_images_from_gz`, `extract_images_from_archive`) and the filename
generator (`generate_unique_filename`), together with theorems settling the
specification's claims about them.

Filenames, keys and log messages are modelled as `List Char`; the filesystem
side effects are made explicit in a state record (`St`); Python exceptions are
modelled as an `Option`/`Except`-style error component threaded through the
functions, so that `try`/`except` structure is visible in the definitions.
-/

/-- Strings of the embedded program, as lists of characters. -/
abbrev Str := List Char

/-- Coerce a Lean string literal to the `List Char` representation. -/
def str (s : String) : Str := s.data

/-- Python `s.strip(chars)`: remove from both ends every character that is a
member of `chars` (a character set, not a substring). -/
def pyStrip (chars : Str) (s : Str) : Str :=
  ((s.dropWhile (fun c => c ∈ chars)).reverse.dropWhile (fun c => c ∈ chars)).reverse

/-- Python `os.path.basename`: the part after the last `'/'`. -/
def bname (s : Str) : Str :=
  (s.reverse.takeWhile (fun c => c ≠ '/')).reverse

/-- Python `os.path.join(d, n)` for a directory `d` without trailing slash. -/
def pyJoin (d n : Str) : Str := d ++ '/' :: n

/-- ASCII lower-casing of one character (`str.lower` restricted to the ASCII
names occurring in the archives). -/
def lowerChar (c : Char) : Char :=
  match c with
  | 'A' => 'a' | 'B' => 'b' | 'C' => 'c' | 'D' => 'd' | 'E' => 'e' | 'F' => 'f'
  | 'G' => 'g' | 'H' => 'h' | 'I' => 'i' | 'J' => 'j' | 'K' => 'k' | 'L' => 'l'
  | 'M' => 'm' | 'N' => 'n' | 'O' => 'o' | 'P' => 'p' | 'Q' => 'q' | 'R' => 'r'
  | 'S' => 's' | 'T' => 't' | 'U' => 'u' | 'V' => 'v' | 'W' => 'w' | 'X' => 'x'
  | 'Y' => 'y' | 'Z' => 'z' | _ => c

/-- Python `s.lower()` on an ASCII string. -/
def lowerL (s : Str) : Str := s.map lowerChar

/-- `datetime` values produced by the program: hours, minutes and seconds are
always zero, so a year/month/day/microsecond tuple suffices. -/
structure DT where
  year : Nat
  month : Nat
  day : Nat
  micro : Nat
deriving DecidableEq, Repr

/-- `datetime` comparison `a <= b` (lexicographic). -/
def dtLe (a b : DT) : Bool :=
  if a.year < b.year then true
  else if b.year < a.year then false
  else if a.month < b.month then true
  else if b.month < a.month then false
  else if a.day < b.day then true
  else if b.day < a.day then false
  else a.micro ≤ b.micro

/-- CPython `%y` pivot: two-digit years 00–68 are 2000–2068, 69–99 are
1969–1999. -/
def twoDigitYear (y : Nat) : Nat := if y ≤ 68 then 2000 + y else 1900 + y

/-- Decimal value of a digit string. -/
def digitsToNat (l : Str) : Nat := l.foldl (fun a c => 10 * a + (c.toNat - 48)) 0

/-- CPython `%f`: the digit string is right-padded to six digits, giving a
microsecond count. -/
def microOf (f : Str) : Nat := digitsToNat f * 10 ^ (6 - f.length)

/-- Drop an expected literal prefix, or fail. -/
def dropStart : Str → Str → Option Str
  | [], s => some s
  | _ :: _, [] => none
  | p :: ps, c :: cs => if c = p then dropStart ps cs else none

/-- After the month digits have been chosen, the rest of the string must be
`'_'` followed by one to six digits reaching the end of the string (`_%f` with
the anchor of a full `strptime` match). Returns month value and microseconds. -/
def tryTail (mdigits : Str) (rest : Str) : Option (Nat × Nat) :=
  match rest with
  | '_' :: f =>
    if f ≠ [] ∧ f.length ≤ 6 ∧ f.all Char.isDigit then
      some (digitsToNat mdigits, microOf f)
    else none
  | _ => none

/-- `datetime.strptime(s, "src/arXiv_src_%y%m_%f")`, returning `none` where
CPython raises `ValueError` (failed regex match, or month out of range).
`%y` is exactly two digits, `%m` is one or two digits matched greedily with
backtracking, `%f` is one to six digits; the day defaults to 1. -/
def strptimeArxiv (s : Str) : Option DT :=
  match dropStart (str "src/arXiv_src_") s with
  | none => none
  | some r =>
    match r with
    | y1 :: y2 :: r2 =>
      if y1.isDigit && y2.isDigit then
        let yr := twoDigitYear (digitsToNat [y1, y2])
        let attempt2 : Option (Nat × Nat) :=
          match r2 with
          | m1 :: m2 :: r3 =>
            if m1.isDigit && m2.isDigit then tryTail [m1, m2] r3 else none
          | _ => none
        let attempt1 : Option (Nat × Nat) :=
          match r2 with
          | m1 :: r3 => if m1.isDigit then tryTail [m1] r3 else none
          | _ => none
        match attempt2.orElse (fun _ => attempt1) with
        | none => none
        | some (mo, mi) =>
          if 1 ≤ mo ∧ mo ≤ 12 then some ⟨yr, mo, 1, mi⟩ else none
      else none
    | _ => none

/-- Hard-coded lower bound `datetime(2023, 9, 19)` of the date window. -/
def lowerBoundDT : DT := ⟨2023, 9, 19, 0⟩

/-- The suffix filter `re.search(r'(\.tar\.gz|\.tar|\.zip)$', s3_key)`. -/
def suffixMatch (k : Str) : Bool :=
  (str ".tar.gz").isSuffixOf k || (str ".tar").isSuffixOf k ||
    (str ".zip").isSuffixOf k

/-- One iteration of the listing loop of `process_arxiv_files`: parse the
stripped key, check the date window, check the suffix filter.  `true` means
the key is forwarded to `download_and_extract_images`. -/
def keyAccepted (cutoff : DT) (k : Str) : Bool :=
  match strptimeArxiv (pyStrip (str ".tar") k) with
  | none => false
  | some d => dtLe lowerBoundDT d && dtLe d cutoff && suffixMatch k

/-- `strptime` as the fallible operation it is in Python: `Except` carries the
`ValueError` that the bare `except: continue` of the listing loop catches. -/
def strptimeE (s : Str) : Except Str DT :=
  match strptimeArxiv s with
  | none => Except.error (str "ValueError")
  | some d => Except.ok d

/-- The listing loop of `process_arxiv_files` over a list of keys returned by
the paginator.  The per-key `try`/`except` around `strptime` converts its
`ValueError` into a `continue`; an error value in the result would mean an
exception escaping the loop.  Returns the keys forwarded to the fetcher. -/
def process_arxiv_files (cutoff : DT) : List Str → Except Str (List Str)
  | [] => Except.ok []
  | k :: rest =>
    let step : Except Str (Option Str) :=
      match strptimeE (pyStrip (str ".tar") k) with
      | Except.error _ => Except.ok none
      | Except.ok d =>
        Except.ok
          (if dtLe lowerBoundDT d && dtLe d cutoff && suffixMatch k then
            some k
          else none)
    match step with
    | Except.error e => Except.error e
    | Except.ok o =>
      match process_arxiv_files cutoff rest with
      | Except.error e => Except.error e
      | Except.ok l => Except.ok (o.toList ++ l)

/-- Digit characters of a hexadecimal representation. -/
def hexDigitChar : Nat → Char
  | 0 => '0' | 1 => '1' | 2 => '2' | 3 => '3' | 4 => '4' | 5 => '5' | 6 => '6'
  | 7 => '7' | 8 => '8' | 9 => '9' | 10 => 'a' | 11 => 'b' | 12 => 'c'
  | 13 => 'd' | 14 => 'e' | _ => 'f'

/-- Fixed-width big-endian hexadecimal representation of `n` (low `k` nibbles). -/
def hexN : Nat → Nat → Str
  | 0, _ => []
  | k + 1, n => hexN k (n / 16) ++ [hexDigitChar (n % 16)]

/-- The canonical 8-4-4-4-12 dash layout of a 32-nibble hexadecimal string. -/
def dashed (h : Str) : Str :=
  h.take 8 ++ '-' :: ((h.drop 8).take 4) ++ '-' :: ((h.drop 12).take 4) ++
    '-' :: ((h.drop 16).take 4) ++ '-' :: (h.drop 20)

/-- Model of `str(uuid.uuid4())` for the `k`-th call of the run: the canonical
36-character 8-4-4-4-12 dashed hexadecimal text of `k`.  `uuid4` draws fresh
random bits per call; the model replaces the random source by the call
counter, keeping the format (36 characters, hex digits and dashes). -/
def uuidStr (n : Nat) : Str := dashed (hexN 32 n)

/-- Python `os.path.splitext` on a path without separators (both call sites
apply it to `os.path.basename(...)` first): split at the last dot, unless all
characters before that dot are themselves dots (leading-dot files have no
extension). -/
def splitextList (s : Str) : Str × Str :=
  let t := (s.reverse.takeWhile (fun c => c ≠ '.')).reverse
  if t.length = s.length then (s, [])
  else
    let base := s.take (s.length - t.length - 1)
    if base.all (fun c => c = '.') then (s, [])
    else (base, '.' :: t)

/-- `generate_unique_filename(save_dir, original_name)` at the `k`-th uuid
call of the run: `os.path.join(save_dir, f"{base}_{unique_id}{ext}")` where
`base, ext = os.path.splitext(original_name)`. -/
def generate_unique_filename (save_dir original_name : Str) (k : Nat) : Str :=
  pyJoin save_dir
    ((splitextList original_name).1 ++ '_' :: uuidStr k ++ (splitextList original_name).2)

/-- `MAX_FILE_SIZE = 700 * 1024`. -/
def MAX_FILE_SIZE : Nat := 700 * 1024

/-- `SUPPORTED_IMAGE_FORMATS = ['.png', '.jpg', '.jpeg', '.gif']`. -/
def SUPPORTED_IMAGE_FORMATS : List Str := [str ".png", str ".jpg", str ".jpeg", str ".gif"]

/-- `IMAGE_SAVE_DIR = './arxiv_images'`. -/
def IMAGE_SAVE_DIR : Str := str "./arxiv_images"

/-- `any(member.name.lower().endswith(ext) for ext in SUPPORTED_IMAGE_FORMATS)`. -/
def imageNamed (n : Str) : Bool :=
  SUPPORTED_IMAGE_FORMATS.any (fun e => e.isSuffixOf (lowerL n))

/-- `member.name.lower().endswith('.gz')`. -/
def gzNamed (n : Str) : Bool := (str ".gz").isSuffixOf (lowerL n)

/-- An archive member as the walker observes it: a name, a `isfile` flag and a
reported size, plus — for regular files — what happens when the walker opens
its bytes as a gzip-wrapped tar: `plain` members make `tarfile.open` raise,
`gzarc` members open onto a list of nested members. -/
inductive Member where
  | nonfile : Str → Member
  | plain : Str → Nat → Member
  | gzarc : Str → Nat → List Member → Member

/-- `member.name`. -/
def mname : Member → Str
  | Member.nonfile n => n
  | Member.plain n _ => n
  | Member.gzarc n _ _ => n

/-- `member.size` (0 for non-file members, never consulted there). -/
def msize : Member → Nat
  | Member.nonfile _ => 0
  | Member.plain _ sz => sz
  | Member.gzarc _ sz _ => sz

/-- `member.isfile()`. -/
def misfile : Member → Bool
  | Member.nonfile _ => false
  | Member.plain _ _ => true
  | Member.gzarc _ _ _ => true

/-- Observable state of a run: the uuid call counter, the temporary archive
files currently on disk, the extracted image files written so far, and the
messages printed so far. -/
structure St where
  counter : Nat
  temps : List Str
  outputs : List Str
  logs : List Str
deriving DecidableEq, Repr

/-- Append a printed message. -/
def addLog (m : Str) (st : St) : St := { st with logs := st.logs ++ [m] }

/-- Write a temporary file (creating or truncating: the path set is unchanged
if the path already exists). -/
def addTemp (p : Str) (st : St) : St :=
  { st with temps := if p ∈ st.temps then st.temps else st.temps ++ [p] }

/-- `os.remove` of a temporary file that exists. -/
def delTemp (p : Str) (st : St) : St :=
  { st with temps := st.temps.filter (fun q => q ≠ p) }

/-- Record an extracted image file. -/
def addOutput (p : Str) (st : St) : St := { st with outputs := st.outputs ++ [p] }

/-- Advance the uuid call counter. -/
def bump (st : St) : St := { st with counter := st.counter + 1 }

/-- Message `f"Extracted image: {save_path}"`. -/
def msgExtracted (p : Str) : Str := str "Extracted image: " ++ p

/-- Message `f"Error extracting {gz_path}: {e}"`. -/
def msgErrExtract (p e : Str) : Str := str "Error extracting " ++ p ++ str ": " ++ e

/-- Message `f"Unsupported file format: {local_path}"`. -/
def msgUnsupported (p : Str) : Str := str "Unsupported file format: " ++ p

/-- Message `f"Downloaded: {s3_key}"`. -/
def msgDownloaded (k : Str) : Str := str "Downloaded: " ++ k

/-- Message `f"Deleted archive: {local_path}"`. -/
def msgDeleted (p : Str) : Str := str "Deleted archive: " ++ p

/-- Message `f"Error downloading and extracting {s3_key}: {e}"`. -/
def msgErrDl (k e : Str) : Str :=
  str "Error downloading and extracting " ++ k ++ str ": " ++ e

/-- Exception text of a failed `tarfile.open` on bytes that are not a
gzip-wrapped tar. -/
def errGzOpen : Str := str "ReadError: not a gzip tar"

/-- Exception text of a failed `os.remove`. -/
def errRemove (p : Str) : Str := str "OSError removing " ++ p

/-- `extract_images_from_archive(archive, save_dir)`: iterate the members; a
regular file with a supported image extension and size within
`MAX_FILE_SIZE` is written under a fresh unique name (oversized images are
skipped silently); otherwise a regular file ending in `.gz` is materialized
to a fresh unique temp path, opened as `'r:gz'` (raising on `plain` content),
walked recursively, and the temp file is removed afterwards.  `rf` tells
which `os.remove` calls raise.  The second component is the exception
propagating out of the call, if any; state changes made before the exception
persist. -/
def extract_images_from_archive (rf : Str → Bool) (d : Str) :
    List Member → St → St × Option Str
  | [], st => (st, none)
  | Member.nonfile _ :: rest, st => extract_images_from_archive rf d rest st
  | Member.plain n sz :: rest, st =>
    if imageNamed n then
      if sz ≤ MAX_FILE_SIZE then
        let p := generate_unique_filename d (bname n) st.counter
        extract_images_from_archive rf d rest
          (addLog (msgExtracted p) (addOutput p (bump st)))
      else extract_images_from_archive rf d rest st
    else if gzNamed n then
      let p := generate_unique_filename d (bname n) st.counter
      (addTemp p (bump st), some errGzOpen)
    else extract_images_from_archive rf d rest st
  | Member.gzarc n sz inner :: rest, st =>
    if imageNamed n then
      if sz ≤ MAX_FILE_SIZE then
        let p := generate_unique_filename d (bname n) st.counter
        extract_images_from_archive rf d rest
          (addLog (msgExtracted p) (addOutput p (bump st)))
      else extract_images_from_archive rf d rest st
    else if gzNamed n then
      let p := generate_unique_filename d (bname n) st.counter
      let st1 := addTemp p (bump st)
      match extract_images_from_archive rf d inner st1 with
      | (st2, some e) => (st2, some e)
      | (st2, none) =>
        if rf p then (st2, some (errRemove p))
        else extract_images_from_archive rf d rest (delTemp p st2)
    else extract_images_from_archive rf d rest st
  termination_by l _ => sizeOf l

/-- What opening a regular-file member's bytes as a gzip tar yields. -/
def gzView : Member → Option (List Member)
  | Member.nonfile _ => none
  | Member.plain _ _ => none
  | Member.gzarc _ _ inner => some inner

/-- `extract_images_from_gz(gz_path, save_dir)`: open the file at `gz_path`
(whose contents are `view`) as a gzip-wrapped tar and walk it; every
exception — from the open or from the walk — is caught and logged, so the
function always returns normally. -/
def extract_images_from_gz (rf : Str → Bool) (d : Str) (view : Option (List Member))
    (gzPath : Str) (st : St) : St :=
  match view with
  | none => addLog (msgErrExtract gzPath errGzOpen) st
  | some inner =>
    match extract_images_from_archive rf d inner st with
    | (st2, none) => st2
    | (st2, some e) => addLog (msgErrExtract gzPath e) st2

/-- Loop body of `extract_from_tar`: for every regular-file member ending in
`.gz`, write it to `save_dir` under its bare basename, process it with
`extract_images_from_gz` (which cannot raise), then `os.remove` it (which can,
and then propagates). -/
def extract_from_tar_loop (rf : Str → Bool) (d : Str) :
    List Member → St → St × Option Str
  | [], st => (st, none)
  | m :: rest, st =>
    if misfile m && gzNamed (mname m) then
      let p := pyJoin d (bname (mname m))
      let st1 := addTemp p st
      let st2 := extract_images_from_gz rf d (gzView m) p st1
      if rf p then (st2, some (errRemove p))
      else extract_from_tar_loop rf d rest (delTemp p st2)
    else extract_from_tar_loop rf d rest st

/-- `extract_from_tar(tar_path, save_dir)`: open the downloaded archive
(`none` models a file `tarfile.open` rejects, raising out of the function)
and run the member loop. -/
def extract_from_tar (rf : Str → Bool) (d : Str) (tarContent : Option (List Member))
    (st : St) : St × Option Str :=
  match tarContent with
  | none => (st, some (str "ReadError: invalid tar"))
  | some ms => extract_from_tar_loop rf d ms st

/-- Body of the `try` block of `download_and_extract_images(s3_key, save_dir)`:
download (`dres = none` models a download exception), print, dispatch on the
local filename's extension — `.tar`/`.tar.gz` to `extract_from_tar`, anything
else logged as unsupported with an early return that leaves the downloaded
file in place — then remove the downloaded archive if it still exists. -/
def download_and_extract_images_body (rf : Str → Bool) (d : Str)
    (dres : Option (Option (List Member))) (key : Str) (st : St) : St × Option Str :=
  let localPath := pyJoin d (bname key)
  match dres with
  | none => (st, some (str "ClientError"))
  | some tarContent =>
    let st1 := addLog (msgDownloaded key) (addTemp localPath st)
    if (str ".tar").isSuffixOf localPath || (str ".tar.gz").isSuffixOf localPath then
      match extract_from_tar rf d tarContent st1 with
      | (st2, some e) => (st2, some e)
      | (st2, none) =>
        if localPath ∈ st2.temps then
          if rf localPath then (st2, some (errRemove localPath))
          else (addLog (msgDeleted localPath) (delTemp localPath st2), none)
        else (st2, none)
    else (addLog (msgUnsupported localPath) st1, none)

/-- `download_and_extract_images(s3_key, save_dir)`: the body wrapped in the
per-key `try`/`except` that catches every exception, logs it with the key,
and returns normally. -/
def download_and_extract_images (rf : Str → Bool) (d : Str)
    (dres : Option (Option (List Member))) (key : Str) (st : St) : St × Option Str :=
  match download_and_extract_images_body rf d dres key st with
  | (st', none) => (st', none)
  | (st', some e) => (addLog (msgErrDl key e) st', none)

/-- Initial state of a run. -/
def st0 : St := ⟨0, [], [], []⟩

/-- A removal oracle under which no `os.remove` call fails. -/
def noRemoveFail : Str → Bool := fun _ => false

/-- `os.getenv`: look a name up in the process environment. -/
def getenv (env : List (Str × Str)) (k : Str) : Option Str :=
  (env.find? (fun p => p.1 = k)).map (fun p => p.2)

/-- The configuration handed to `boto3.resource("s3", ...)`. -/
structure S3Config where
  accessKey : Option Str
  secretKey : Option Str
  region : Str
deriving DecidableEq, Repr

/-- The storage client construction of the script: `AWS_ACCESS_KEY` and
`AWS_SECRET_KEY` are read from the environment with `os.getenv` (no
validation, `None` is passed through), while `region_name` is the string
literal `"us-east-1"`. -/
def s3_resource_config (env : List (Str × Str)) : S3Config :=
  ⟨getenv env (str "AWS_ACCESS_KEY"), getenv env (str "AWS_SECRET_KEY"),
    str "us-east-1"⟩

/-- Number of members of an archive tree that the image extractor accepts:
regular files with a supported image extension and reported size within
`MAX_FILE_SIZE`, counting recursively through the nested gzip-tar members the
walker descends into (regular files ending in `.gz`). -/
def countQ : List Member → Nat
  | [] => 0
  | Member.nonfile _ :: rest => countQ rest
  | Member.plain n sz :: rest =>
    (if imageNamed n then (if sz ≤ MAX_FILE_SIZE then 1 else 0) else 0) + countQ rest
  | Member.gzarc n sz inner :: rest =>
    (if imageNamed n then (if sz ≤ MAX_FILE_SIZE then 1 else 0)
      else if gzNamed n then countQ inner else 0) + countQ rest
  termination_by l => sizeOf l

/-- Value of a hexadecimal digit character. -/
def hexVal (c : Char) : Nat := if c ≤ '9' then c.toNat - 48 else c.toNat - 87

/-- Decimal value of a big-endian hexadecimal string. -/
def unhexL (l : Str) : Nat := l.foldl (fun a c => 16 * a + hexVal c) 0

/-- Length of the maximal suffix without a dot. -/
def dotFreeTail (l : Str) : Nat := (l.reverse.takeWhile (fun c => c ≠ '.')).length

/-- Shape of the extensions `os.path.splitext` can hand to the filename
generator at its two call sites: empty, or a dot followed by a short
dot-free tail. -/
def extOKp (e : Str) : Prop := e = [] ∨ ∃ t, e = '.' :: t ∧ '.' ∉ t ∧ t.length < 36

/-- An output path carrying the stamp of the uuid call that created it. -/
def stamped (d : Str) (c : Nat) (p : Str) : Prop :=
  ∃ o k, extOKp (splitextList o).2 ∧ k < c ∧ p = generate_unique_filename d o k

/-- Invariant of the C6 argument: the outputs so far are pairwise distinct
and every one is a generated unique filename stamped below the counter. -/
def InvC6 (d : Str) (st : St) : Prop :=
  st.outputs.Nodup ∧ ∀ p ∈ st.outputs, stamped d st.counter p

@[simp] theorem temps_addLog (m : Str) (st : St) : (addLog m st).temps = st.temps := rfl

@[simp] theorem temps_addOutput (p : Str) (st : St) : (addOutput p st).temps = st.temps := rfl

@[simp] theorem temps_bump (st : St) : (bump st).temps = st.temps := rfl

theorem mem_addTemp {p q : Str} {st : St} (h : p ∈ (addTemp q st).temps) :
    p ∈ st.temps ∨ p = q := by
  unfold addTemp at h
  by_cases hq : q ∈ st.temps
  · simp [hq] at h; exact Or.inl h
  · simp [hq] at h; rcases h with h | h
    · exact Or.inl h
    · exact Or.inr h

theorem mem_delTemp {p q : Str} {st : St} (h : p ∈ (delTemp q st).temps) :
    p ∈ st.temps ∧ p ≠ q := by
  unfold delTemp at h
  simpa using (List.mem_filter.mp h)

theorem walk_temps_subset (rf : Str → Bool) (d : Str) :
    ∀ (ms : List Member) (st st' : St),
      extract_images_from_archive rf d ms st = (st', none) →
      ∀ p ∈ st'.temps, p ∈ st.temps := by
  intro ms st
  induction ms, st using extract_images_from_archive.induct rf d with
  | case1 st =>
    intro st' h q hq
    simp only [extract_images_from_archive, Prod.mk.injEq] at h
    rw [← h.1] at hq; exact hq
  | case2 a rest st ih =>
    intro st' h q hq
    simp only [extract_images_from_archive] at h
    exact ih st' h q hq
  | case3 n sz rest st h1 h2 p ih =>
    intro st' h q hq
    simp only [extract_images_from_archive, h1, h2, if_true, if_pos] at h
    simpa using ih st' h q hq
  | case4 n sz rest st h1 h2 ih =>
    intro st' h q hq
    simp only [extract_images_from_archive, h1, h2, if_true, if_false] at h
    exact ih st' h q hq
  | case5 n sz rest st h1 h2 =>
    intro st' h q hq
    simp only [extract_images_from_archive, h1, h2] at h
    have h2 := congrArg Prod.snd h
    simp at h2
  | case6 n sz rest st h1 h2 ih =>
    intro st' h q hq
    simp only [extract_images_from_archive, h1, h2] at h
    exact ih st' h q hq
  | case7 n sz inner rest st h1 h2 p ih =>
    intro st' h q hq
    simp only [extract_images_from_archive, h1, h2] at h
    simpa using ih st' h q hq
  | case8 n sz inner rest st h1 h2 ih =>
    intro st' h q hq
    simp only [extract_images_from_archive, h1, h2] at h
    exact ih st' h q hq
  | case9 n sz inner rest st h1 h2 p st1 st2 e hrec ih =>
    intro st' h q hq
    simp only [extract_images_from_archive, h1, h2, hrec] at h
    have hbad := congrArg Prod.snd h
    simp at hbad
  | case10 n sz inner rest st h1 h2 p st1 st2 hrec hrf ih =>
    intro st' h q hq
    simp only [extract_images_from_archive, h1, h2, hrec, hrf] at h
    have hbad := congrArg Prod.snd h
    simp at hbad
  | case11 n sz inner rest st h1 h2 p st1 st2 hrec hrf ih1 ih2 =>
    intro st' h q hq
    simp only [extract_images_from_archive, h1, h2, hrec, hrf] at h
    have hq2 := ih2 st' h q hq
    have hq3 := mem_delTemp hq2
    have hq4 := ih1 st2 hrec q hq3.1
    rcases mem_addTemp (show q ∈ (addTemp p (bump st)).temps from hq4) with h5 | h5
    · simpa using h5
    · exact absurd h5 hq3.2
  | case12 n sz inner rest st h1 h2 ih =>
    intro st' h q hq
    simp only [extract_images_from_archive, h1, h2] at h
    exact ih st' h q hq

/-- C1: the claim states that with the default cutoff `datetime(2024,1,1)` the
key `src/arXiv_src_2309_001.tar` is accepted by the catalog lister.  It is
not: `strptime` parses the stripped key to `datetime(2023, 9, 1)` (first day
of the month, with 1000 microseconds from `%f` on `"001"`), and
`datetime(2023,9,19) <= datetime(2023,9,1,...)` is false, so the key is
rejected, refuting the claim at this concrete input. -/
theorem C1_counterexample :
    strptimeArxiv (pyStrip (str ".tar") (str "src/arXiv_src_2309_001.tar")) =
        some ⟨2023, 9, 1, 1000⟩ ∧
      keyAccepted ⟨2024, 1, 1, 0⟩ (str "src/arXiv_src_2309_001.tar") = false := by
  constructor
  · decide
  · decide

/-- C1 (amended): with the default cutoff `datetime(2024,1,1)`, the key
`src/arXiv_src_2309_001.tar` parses to 2023-09-01, which lies below the
closed lower bound `datetime(2023,9,19)`, so it is rejected; the key
`src/arXiv_src_2209_001.tar` parses to 2022-09-01 and is rejected; a key of
a later month such as `src/arXiv_src_2310_001.tar` parses to 2023-10-01 and
is accepted (forwarded to the fetcher). -/
theorem C1_amended :
    strptimeArxiv (pyStrip (str ".tar") (str "src/arXiv_src_2309_001.tar")) =
        some ⟨2023, 9, 1, 1000⟩ ∧
      keyAccepted ⟨2024, 1, 1, 0⟩ (str "src/arXiv_src_2309_001.tar") = false ∧
      strptimeArxiv (pyStrip (str ".tar") (str "src/arXiv_src_2209_001.tar")) =
        some ⟨2022, 9, 1, 1000⟩ ∧
      keyAccepted ⟨2024, 1, 1, 0⟩ (str "src/arXiv_src_2209_001.tar") = false ∧
      keyAccepted ⟨2024, 1, 1, 0⟩ (str "src/arXiv_src_2310_001.tar") = true := by
  refine ⟨by decide, by decide, by decide, by decide, by decide⟩

/-- C9: the claim states that three storage-access configuration values — the
credential pair and the region — are read from the process environment.  The
region is not: it is the hard-coded literal `'us-east-1'`, unaffected by the
environment.  In an environment that maps `AWS_REGION` to `eu-west-1` (and
sets no credentials), the client still receives region `us-east-1`, and the
absent credentials are passed through as `None` unvalidated. -/
theorem C9_counterexample :
    (s3_resource_config [(str "AWS_REGION", str "eu-west-1")]).region =
        str "us-east-1" ∧
      getenv [(str "AWS_REGION", str "eu-west-1")] (str "AWS_REGION") =
        some (str "eu-west-1") ∧
      (s3_resource_config [(str "AWS_REGION", str "eu-west-1")]).region ≠
        str "eu-west-1" ∧
      (s3_resource_config [(str "AWS_REGION", str "eu-west-1")]).accessKey = none := by
  refine ⟨rfl, by decide, by decide, by decide⟩

/-- C9 (amended): the program reads two storage-access configuration values —
the access-key/secret-key credential pair — from the process environment and
passes them to the storage client without validating that they are present;
the region is the hard-coded literal `'us-east-1'`, not read from the
environment. -/
theorem C9_amended (env : List (Str × Str)) :
    (s3_resource_config env).accessKey = getenv env (str "AWS_ACCESS_KEY") ∧
      (s3_resource_config env).secretKey = getenv env (str "AWS_SECRET_KEY") ∧
      (s3_resource_config env).region = str "us-east-1" :=
  ⟨rfl, rfl, rfl⟩

/-- C3: the claim states that every temp file materialized for recursing into
a nested compressed member is deleted immediately after the recursive
processing, with release guaranteed, so no intermediate temp files remain
after the walker returns.  The inner walker has no `try`/`finally`: when the
nested member's bytes are not a valid gzip tar, `tarfile.open` raises after
the temp file was written, `os.remove` is skipped, and the exception is
caught one level up in `extract_images_from_gz`, which returns normally —
leaving the temp file on disk.  Concretely: a gzip archive containing the
single corrupt member `b.gz` (7 bytes) leaves one temp file behind. -/
theorem C3_counterexample :
    (extract_images_from_gz noRemoveFail IMAGE_SAVE_DIR
        (some [Member.plain (str "b.gz") 7]) (str "x.gz") st0).temps ≠ [] := by
  simp +decide [extract_images_from_gz, extract_images_from_archive]

/-- C3 (amended): a temp file materialized for recursion is deleted
immediately after the recursive processing of its contents only on the
non-exceptional path; whenever the walker finishes without an exception
(in particular, every `os.remove` succeeded), no freshly created temp file
remains on disk — every temp still present afterwards was there before the
walk. If the nested open or walk raises, the deletion is skipped and the
temp file leaks. -/
theorem C3_amended (rf : Str → Bool) (d : Str) (ms : List Member) (st st' : St)
    (h : extract_images_from_archive rf d ms st = (st', none)) :
    ∀ p ∈ st'.temps, p ∈ st.temps :=
  walk_temps_subset rf d ms st st' h

/-- Witness for the amended C3 at a concrete exception-free run: a gzip tar
holding a small image and an oversized one; the walk succeeds and the final
temp list (empty) is contained in the initial one. -/
theorem C3_amended_witness :
    (extract_images_from_archive noRemoveFail IMAGE_SAVE_DIR
        [Member.gzarc (str "a.gz") 5
          [Member.plain (str "x.png") (10 * 1024),
            Member.plain (str "big.jpg") (800 * 1024)]] st0) =
      ((extract_images_from_archive noRemoveFail IMAGE_SAVE_DIR
        [Member.gzarc (str "a.gz") 5
          [Member.plain (str "x.png") (10 * 1024),
            Member.plain (str "big.jpg") (800 * 1024)]] st0).1, none) ∧
    ∀ p ∈ (extract_images_from_archive noRemoveFail IMAGE_SAVE_DIR
        [Member.gzarc (str "a.gz") 5
          [Member.plain (str "x.png") (10 * 1024),
            Member.plain (str "big.jpg") (800 * 1024)]] st0).1.temps,
      p ∈ st0.temps := by
  have h1 : (extract_images_from_archive noRemoveFail IMAGE_SAVE_DIR
      [Member.gzarc (str "a.gz") 5
        [Member.plain (str "x.png") (10 * 1024),
          Member.plain (str "big.jpg") (800 * 1024)]] st0) =
      ((extract_images_from_archive noRemoveFail IMAGE_SAVE_DIR
        [Member.gzarc (str "a.gz") 5
          [Member.plain (str "x.png") (10 * 1024),
            Member.plain (str "big.jpg") (800 * 1024)]] st0).1, none) := by
    simp +decide [extract_images_from_archive]
  exact ⟨h1, C3_amended noRemoveFail IMAGE_SAVE_DIR _ st0 _ h1⟩

/-- A freshly written path is on disk. -/
theorem self_mem_addTemp (p : Str) (st : St) : p ∈ (addTemp p st).temps := by
  unfold addTemp
  by_cases hp : p ∈ st.temps
  · simp [hp]
  · simp [hp]

/-- The per-key `try`/`except` of `download_and_extract_images` converts every
exception of its body into a logged message: the function never re-raises. -/
theorem dl_snd_none (rf : Str → Bool) (d : Str) (dres : Option (Option (List Member)))
    (key : Str) (st : St) : (download_and_extract_images rf d dres key st).2 = none := by
  unfold download_and_extract_images
  rcases h : download_and_extract_images_body rf d dres key st with ⟨st', e⟩
  cases e <;> simp

/-- C4: for every key and every exception arising during download or
extraction (download failures, unreadable archives, failing nested opens,
failing removals — all quantified through the oracles `dres` and `rf`), the
per-key function returns normally (second component `none`), and its printed
output is exactly the body's output followed — when the body raised `e` — by
the message `Error downloading and extracting <key>: <e>`, which contains the
key. -/
theorem C4_per_key_catch (rf : Str → Bool) (d : Str)
    (dres : Option (Option (List Member))) (key : Str) (st : St) :
    (download_and_extract_images rf d dres key st).2 = none ∧
      (download_and_extract_images rf d dres key st).1.logs =
        (download_and_extract_images_body rf d dres key st).1.logs ++
          (match (download_and_extract_images_body rf d dres key st).2 with
            | some e => [msgErrDl key e]
            | none => []) := by
  refine ⟨dl_snd_none rf d dres key st, ?_⟩
  unfold download_and_extract_images
  rcases h : download_and_extract_images_body rf d dres key st with ⟨st', e⟩
  cases e <;> simp [addLog]

/-- C5: when the downloaded local file's name ends in neither `.tar` nor
`.tar.gz`, `download_and_extract_images` logs `Unsupported file format:
<local path>` and returns without raising, and the downloaded file is left on
disk. -/
theorem C5_unsupported_format (rf : Str → Bool) (d : Str)
    (tc : Option (List Member)) (key : Str) (st : St)
    (h1 : (str ".tar").isSuffixOf (pyJoin d (bname key)) = false)
    (h2 : (str ".tar.gz").isSuffixOf (pyJoin d (bname key)) = false) :
    (download_and_extract_images rf d (some tc) key st).2 = none ∧
      msgUnsupported (pyJoin d (bname key)) ∈
        (download_and_extract_images rf d (some tc) key st).1.logs ∧
      pyJoin d (bname key) ∈
        (download_and_extract_images rf d (some tc) key st).1.temps := by
  have hbody : download_and_extract_images_body rf d (some tc) key st =
      (addLog (msgUnsupported (pyJoin d (bname key)))
        (addLog (msgDownloaded key) (addTemp (pyJoin d (bname key)) st)), none) := by
    unfold download_and_extract_images_body
    simp [h1, h2]
  refine ⟨dl_snd_none rf d (some tc) key st, ?_, ?_⟩
  · unfold download_and_extract_images
    rw [hbody]
    simp [addLog]
  · unfold download_and_extract_images
    rw [hbody]
    simpa [addLog] using self_mem_addTemp (pyJoin d (bname key)) st

/-- Witness for C5 at the spec's concrete input: the key `src/paper.zip`
downloads to `./arxiv_images/paper.zip`, which matches neither handled
extension; the function logs the unsupported-format message, returns
normally, and the file stays on disk. -/
theorem C5_witness :
    (str ".tar").isSuffixOf (pyJoin IMAGE_SAVE_DIR (bname (str "src/paper.zip"))) = false ∧
      (str ".tar.gz").isSuffixOf (pyJoin IMAGE_SAVE_DIR (bname (str "src/paper.zip"))) = false ∧
      ((download_and_extract_images noRemoveFail IMAGE_SAVE_DIR (some (some []))
          (str "src/paper.zip") st0).2 = none ∧
        msgUnsupported (pyJoin IMAGE_SAVE_DIR (bname (str "src/paper.zip"))) ∈
          (download_and_extract_images noRemoveFail IMAGE_SAVE_DIR (some (some []))
            (str "src/paper.zip") st0).1.logs ∧
        pyJoin IMAGE_SAVE_DIR (bname (str "src/paper.zip")) ∈
          (download_and_extract_images noRemoveFail IMAGE_SAVE_DIR (some (some []))
            (str "src/paper.zip") st0).1.temps) :=
  ⟨by decide, by decide,
    C5_unsupported_format noRemoveFail IMAGE_SAVE_DIR (some []) (str "src/paper.zip") st0
      (by decide) (by decide)⟩

/-- C7: the claim states that an exception raised by `os.remove` is not
caught by the per-key handler and terminates the run.  It is caught: the
removal of the downloaded archive sits inside the per-key `try` block.
Concretely, under an oracle where every `os.remove` raises, processing the
key `src/arXiv_src_2310_001.tar` (a valid empty tar) makes the body raise
exactly at the archive removal, yet the per-key function returns normally
with the error logged — the run is not terminated. -/
theorem C7_counterexample :
    (download_and_extract_images_body (fun _ => true) IMAGE_SAVE_DIR (some (some []))
        (str "src/arXiv_src_2310_001.tar") st0).2 =
      some (errRemove (pyJoin IMAGE_SAVE_DIR (str "arXiv_src_2310_001.tar"))) ∧
      (download_and_extract_images (fun _ => true) IMAGE_SAVE_DIR (some (some []))
        (str "src/arXiv_src_2310_001.tar") st0).2 = none ∧
      msgErrDl (str "src/arXiv_src_2310_001.tar")
          (errRemove (pyJoin IMAGE_SAVE_DIR (str "arXiv_src_2310_001.tar"))) ∈
        (download_and_extract_images (fun _ => true) IMAGE_SAVE_DIR (some (some []))
          (str "src/arXiv_src_2310_001.tar") st0).1.logs := by
  refine ⟨by decide, by decide, by decide⟩

/-- C7 (amended): every deletion failure is caught below or at the per-key
handler: for every pattern `rf` of failing `os.remove` calls (and every
download/extraction outcome), `download_and_extract_images` returns normally,
so a deletion failure never propagates out of the per-key processing and the
run continues. -/
theorem C7_amended (rf : Str → Bool) (d : Str) (dres : Option (Option (List Member)))
    (key : Str) (st : St) :
    (download_and_extract_images rf d dres key st).2 = none :=
  dl_snd_none rf d dres key st

theorem dropStart_eq : ∀ (p s r : Str), dropStart p s = some r → s = p ++ r := by
  intro p
  induction p with
  | nil => intro s r h; simp [dropStart] at h; simp [h]
  | cons c cs ih =>
    intro s r h
    cases s with
    | nil => simp [dropStart] at h
    | cons x xs =>
      unfold dropStart at h
      by_cases hx : x = c
      · rw [if_pos hx] at h
        rw [hx, List.cons_append]
        exact congrArg (fun l => c :: l) (ih xs r h)
      · rw [if_neg hx] at h; cases h

theorem getLast_digit_of_all (f : Str) (c : Char) (hall : f.all Char.isDigit = true)
    (hl : f.getLast? = some c) : c.isDigit = true := by
  rcases List.mem_getLast?_eq_getLast (by rw [hl]; rfl) with ⟨hne, hc⟩
  subst hc
  exact (List.all_eq_true.mp hall) _ (List.getLast_mem hne)

theorem getLast?_of_ne_nil (f : Str) (hne : f ≠ []) : ∃ c, f.getLast? = some c := by
  rcases hgl : f.getLast? with _ | c
  · rw [List.getLast?_eq_none_iff] at hgl; exact absurd hgl hne
  · exact ⟨c, rfl⟩

theorem tryTail_shape (md rest : Str) (mo mi : Nat)
    (h : tryTail md rest = some (mo, mi)) :
    ∃ f, rest = '_' :: f ∧ f ≠ [] ∧ f.all Char.isDigit = true := by
  unfold tryTail at h
  split at h
  · next f =>
    split at h
    · next hcond => exact ⟨f, rfl, hcond.1, hcond.2.2⟩
    · cases h
  · cases h

theorem strptime_last_digit (s : Str) (dt : DT) (h : strptimeArxiv s = some dt) :
    ∃ c, s.getLast? = some c ∧ c.isDigit = true := by
  unfold strptimeArxiv at h
  split at h
  · cases h
  next r hds =>
  have hs := dropStart_eq _ _ _ hds
  split at h
  case h_2 => cases h
  next y1 y2 r2 =>
  split at h
  case isFalse => cases h
  next hy =>
  simp only at h
  split at h
  · cases h
  next mo mi horel =>
  have htail : ∃ pre2 f, r2 = pre2 ++ f ∧ f ≠ [] ∧ f.all Char.isDigit = true := by
    rcases ha : (match r2 with
        | m1 :: m2 :: r3 =>
          if (m1.isDigit && m2.isDigit) = true then tryTail [m1, m2] r3 else none
        | x => none) with _ | v
    · rw [ha] at horel
      simp only [Option.orElse, Option.none_orElse] at horel
      split at horel
      · next m1 r3 =>
        split at horel
        · rcases tryTail_shape _ _ _ _ horel with ⟨f, hr3, hne, hall⟩
          exact ⟨[m1, '_'], f, by simp [hr3], hne, hall⟩
        · cases horel
      · cases horel
    · split at ha
      · next m1 m2 r3 =>
        split at ha
        · rcases tryTail_shape _ _ _ _ ha with ⟨f, hr3, hne, hall⟩
          exact ⟨[m1, m2, '_'], f, by simp [hr3], hne, hall⟩
        · cases ha
      · cases ha
  rcases htail with ⟨pre2, f, hr2, hfne, hall⟩
  rcases getLast?_of_ne_nil f hfne with ⟨c, hc⟩
  refine ⟨c, ?_, getLast_digit_of_all f c hall hc⟩
  rw [hs, hr2]
  have hsplit : str "src/arXiv_src_" ++ (y1 :: y2 :: (pre2 ++ f)) =
      (str "src/arXiv_src_" ++ y1 :: y2 :: pre2) ++ f := by simp
  rw [hsplit, List.getLast?_append_of_ne_nil _ hfne, hc]

theorem pyStrip_getLast (chars k : Str) (c : Char) (hlast : k.getLast? = some c)
    (hc : c ∉ chars) : (pyStrip chars k).getLast? = some c := by
  unfold pyStrip
  have hsplit := List.takeWhile_append_dropWhile
      (p := fun x => decide (x ∈ chars)) (l := k)
  have hs1ne : k.dropWhile (fun x => decide (x ∈ chars)) ≠ [] := by
    intro h0
    have hk := hsplit
    rw [h0, List.append_nil] at hk
    rcases List.mem_getLast?_eq_getLast (by rw [hlast]; rfl) with ⟨hne, hcc⟩
    have hmem : c ∈ k := by rw [hcc]; exact List.getLast_mem hne
    rw [← hk] at hmem
    have := List.mem_takeWhile_imp hmem
    simp at this
    exact hc this
  have hgl : (k.dropWhile (fun x => decide (x ∈ chars))).getLast? = some c := by
    rw [← hsplit] at hlast
    rwa [List.getLast?_append_of_ne_nil _ hs1ne] at hlast
  have hrev : (k.dropWhile (fun x => decide (x ∈ chars))).reverse.head? = some c := by
    rw [List.head?_reverse]
    exact hgl
  rcases hrc : (k.dropWhile (fun x => decide (x ∈ chars))).reverse with _ | ⟨c', t⟩
  · rw [hrc] at hrev; cases hrev
  · rw [hrc] at hrev
    have hcc' : c' = c := by simpa using hrev
    subst hcc'
    have hpc : (fun x => decide (x ∈ chars)) c' = false := by simpa using hc
    rw [List.dropWhile_cons_of_neg (by simp [hpc])]
    rw [← hrc, List.reverse_reverse]
    exact hgl

theorem targz_zip_parse_none (k : Str)
    (h : (str ".tar.gz").isSuffixOf k = true ∨ (str ".zip").isSuffixOf k = true) :
    strptimeArxiv (pyStrip (str ".tar") k) = none := by
  have hkl : ∃ c, k.getLast? = some c ∧ c ∉ str ".tar" ∧ c.isDigit = false := by
    rcases h with h | h
    · rw [List.isSuffixOf_iff_suffix] at h
      rcases h with ⟨t, ht⟩
      refine ⟨'z', ?_, by decide, by decide⟩
      rw [← ht, List.getLast?_append_of_ne_nil _ (by decide)]
      decide
    · rw [List.isSuffixOf_iff_suffix] at h
      rcases h with ⟨t, ht⟩
      refine ⟨'p', ?_, by decide, by decide⟩
      rw [← ht, List.getLast?_append_of_ne_nil _ (by decide)]
      decide
  rcases hkl with ⟨c, hklast, hcn, hcd⟩
  have hstrip := pyStrip_getLast (str ".tar") k c hklast hcn
  rcases hres : strptimeArxiv (pyStrip (str ".tar") k) with _ | dd
  · rfl
  · rcases strptime_last_digit _ _ hres with ⟨c2, hc2, hdig⟩
    rw [hstrip] at hc2
    cases hc2
    rw [hdig] at hcd
    cases hcd

theorem accepted_ends_tar (cutoff : DT) (k : Str) (h : keyAccepted cutoff k = true) :
    (str ".tar").isSuffixOf k = true := by
  unfold keyAccepted at h
  split at h
  · cases h
  next dd hp =>
  have hsuf : suffixMatch k = true := by
    simp only [Bool.and_eq_true] at h
    exact h.2
  unfold suffixMatch at hsuf
  simp only [Bool.or_eq_true] at hsuf
  rcases hsuf with (hgz | htar) | hzip
  · rw [targz_zip_parse_none k (Or.inl hgz)] at hp; cases hp
  · exact htar
  · rw [targz_zip_parse_none k (Or.inr hzip)] at hp; cases hp

theorem process_eq_filter (cutoff : DT) : ∀ (keys : List Str),
    process_arxiv_files cutoff keys = Except.ok (keys.filter (keyAccepted cutoff)) := by
  intro keys
  induction keys with
  | nil => rfl
  | cons k rest ih =>
    rcases hp : strptimeArxiv (pyStrip (str ".tar") k) with _ | dd
    · have hacc : keyAccepted cutoff k = false := by unfold keyAccepted; rw [hp]
      simp [process_arxiv_files, strptimeE, hp, ih, List.filter_cons, hacc]
    · by_cases hcond : (dtLe lowerBoundDT dd && dtLe dd cutoff && suffixMatch k) = true
      · have hacc : keyAccepted cutoff k = true := by
          unfold keyAccepted; rw [hp]; exact hcond
        simp [process_arxiv_files, strptimeE, hp, ih, List.filter_cons, hacc, hcond]
      · have hacc : keyAccepted cutoff k = false := by
          unfold keyAccepted; rw [hp]; exact Bool.eq_false_iff.mpr hcond
        simp [process_arxiv_files, strptimeE, hp, ih, List.filter_cons, hacc, hcond]

/-- C8: the listing loop forwards exactly the keys accepted by the
parse/window/suffix filter — so a key whose date parse fails is excluded from
all further processing (never forwarded to download/extract) — and the loop
never lets an exception escape (the result is always `ok`, the `ValueError`
of `strptime` being consumed by the bare `except: continue`). -/
theorem C8_parse_failure_skipped (cutoff : DT) (keys : List Str) :
    process_arxiv_files cutoff keys =
        Except.ok (keys.filter (keyAccepted cutoff)) ∧
      ∀ k : Str, strptimeArxiv (pyStrip (str ".tar") k) = none →
        k ∉ keys.filter (keyAccepted cutoff) := by
  refine ⟨process_eq_filter cutoff keys, ?_⟩
  intro k hk hmem
  have hacc := (List.mem_filter.mp hmem).2
  unfold keyAccepted at hacc
  rw [hk] at hacc
  cases hacc

/-- Witness for C8: the unparseable key `src/weird.txt` makes the loop return
normally with an empty forwarded list, and the key is not forwarded. -/
theorem C8_witness :
    process_arxiv_files ⟨2024, 1, 1, 0⟩ [str "src/weird.txt"] =
        Except.ok ([str "src/weird.txt"].filter (keyAccepted ⟨2024, 1, 1, 0⟩)) ∧
      str "src/weird.txt" ∉
        [str "src/weird.txt"].filter (keyAccepted ⟨2024, 1, 1, 0⟩) :=
  ⟨(C8_parse_failure_skipped ⟨2024, 1, 1, 0⟩ [str "src/weird.txt"]).1,
    (C8_parse_failure_skipped ⟨2024, 1, 1, 0⟩ [str "src/weird.txt"]).2
      (str "src/weird.txt") (by decide)⟩

/-- C10: for every listed key ending in `.tar.gz` or `.zip`, the date parse
applied to `s3_key.strip('.tar')` fails (`strip` removes characters of the
set, so the trailing `z`/`p` survives and cannot match the digits of `%f`),
and consequently every key the lister forwards ends in `.tar`. -/
theorem C10_only_tar_forwarded :
    (∀ k : Str,
        (str ".tar.gz").isSuffixOf k = true ∨ (str ".zip").isSuffixOf k = true →
        strptimeArxiv (pyStrip (str ".tar") k) = none) ∧
      ∀ (cutoff : DT) (k : Str), keyAccepted cutoff k = true →
        (str ".tar").isSuffixOf k = true :=
  ⟨fun k h => targz_zip_parse_none k h,
    fun cutoff k h => accepted_ends_tar cutoff k h⟩

/-- Witness for C10 at concrete keys: the `.tar.gz` and `.zip` variants of a
well-formed key fail the parse, and a forwarded key ends in `.tar`. -/
theorem C10_witness :
    strptimeArxiv (pyStrip (str ".tar") (str "src/arXiv_src_2310_001.tar.gz")) = none ∧
      strptimeArxiv (pyStrip (str ".tar") (str "src/arXiv_src_2310_001.zip")) = none ∧
      (str ".tar").isSuffixOf (str "src/arXiv_src_2310_001.tar") = true :=
  ⟨C10_only_tar_forwarded.1 (str "src/arXiv_src_2310_001.tar.gz") (Or.inl (by decide)),
    C10_only_tar_forwarded.1 (str "src/arXiv_src_2310_001.zip") (Or.inr (by decide)),
    C10_only_tar_forwarded.2 ⟨2024, 1, 1, 0⟩ (str "src/arXiv_src_2310_001.tar")
      (by decide)⟩

@[simp] theorem outputs_addLog (m : Str) (st : St) : (addLog m st).outputs = st.outputs := rfl

@[simp] theorem outputs_bump (st : St) : (bump st).outputs = st.outputs := rfl

@[simp] theorem outputs_addTemp (p : Str) (st : St) : (addTemp p st).outputs = st.outputs := rfl

@[simp] theorem outputs_delTemp (p : Str) (st : St) : (delTemp p st).outputs = st.outputs := rfl

@[simp] theorem outputs_addOutput (p : Str) (st : St) :
    (addOutput p st).outputs = st.outputs ++ [p] := rfl

@[simp] theorem logs_addOutput (p : Str) (st : St) : (addOutput p st).logs = st.logs := rfl

@[simp] theorem logs_bump (st : St) : (bump st).logs = st.logs := rfl

@[simp] theorem logs_addTemp (p : Str) (st : St) : (addTemp p st).logs = st.logs := rfl

@[simp] theorem logs_delTemp (p : Str) (st : St) : (delTemp p st).logs = st.logs := rfl

@[simp] theorem logs_addLog (m : Str) (st : St) : (addLog m st).logs = st.logs ++ [m] := rfl

theorem walk_counts (rf : Str → Bool) (d : Str) :
    ∀ (ms : List Member) (st st' : St),
      extract_images_from_archive rf d ms st = (st', none) →
      st'.outputs.length = st.outputs.length + countQ ms ∧
        st'.logs.length = st.logs.length + countQ ms := by
  intro ms st
  induction ms, st using extract_images_from_archive.induct rf d with
  | case1 st =>
    intro st' h
    simp only [extract_images_from_archive, Prod.mk.injEq] at h
    rw [← h.1]
    simp [countQ]
  | case2 a rest st ih =>
    intro st' h
    simp only [extract_images_from_archive] at h
    simpa [countQ] using ih st' h
  | case3 n sz rest st h1 h2 p ih =>
    intro st' h
    rw [extract_images_from_archive, if_pos h1, if_pos h2] at h
    have := ih st' h
    simp [countQ, h1, h2] at this ⊢
    omega
  | case4 n sz rest st h1 h2 ih =>
    intro st' h
    rw [extract_images_from_archive, if_pos h1, if_neg h2] at h
    have := ih st' h
    simp [countQ, h1, h2] at this ⊢
    omega
  | case5 n sz rest st h1 h2 =>
    intro st' h
    rw [extract_images_from_archive, if_neg h1, if_pos h2] at h
    have hbad := congrArg Prod.snd h
    simp at hbad
  | case6 n sz rest st h1 h2 ih =>
    intro st' h
    rw [extract_images_from_archive, if_neg h1, if_neg h2] at h
    have := ih st' h
    simp [countQ, h1, h2] at this ⊢
    omega
  | case7 n sz inner rest st h1 h2 p ih =>
    intro st' h
    rw [extract_images_from_archive, if_pos h1, if_pos h2] at h
    have := ih st' h
    simp [countQ, h1, h2] at this ⊢
    omega
  | case8 n sz inner rest st h1 h2 ih =>
    intro st' h
    rw [extract_images_from_archive, if_pos h1, if_neg h2] at h
    have := ih st' h
    simp [countQ, h1, h2] at this ⊢
    omega
  | case9 n sz inner rest st h1 h2 p st1 st2 e hrec ih =>
    intro st' h
    rw [extract_images_from_archive, if_neg h1, if_pos h2] at h
    simp only [hrec] at h
    have hbad := congrArg Prod.snd h
    simp at hbad
  | case10 n sz inner rest st h1 h2 p st1 st2 hrec hrf ih =>
    intro st' h
    rw [extract_images_from_archive, if_neg h1, if_pos h2] at h
    simp only [hrec, hrf, if_true] at h
    have hbad := congrArg Prod.snd h
    simp at hbad
  | case11 n sz inner rest st h1 h2 p st1 st2 hrec hrf ih1 ih2 =>
    intro st' h
    rw [extract_images_from_archive, if_neg h1, if_pos h2] at h
    simp only [hrec, hrf, if_false] at h
    have hin := ih1 st2 hrec
    have hout := ih2 st' h
    have e1 : st1.outputs = st.outputs := rfl
    have e2 : st1.logs = st.logs := rfl
    simp [countQ, h1, h2, e1, e2] at hin hout ⊢
    omega
  | case12 n sz inner rest st h1 h2 ih =>
    intro st' h
    rw [extract_images_from_archive, if_neg h1, if_neg h2] at h
    have := ih st' h
    simp [countQ, h1, h2] at this ⊢
    omega

theorem walk_oversized_skip (rf : Str → Bool) (d : Str) (m : Member) (st : St)
    (hng : (misfile m && gzNamed (mname m)) = false)
    (hsz : MAX_FILE_SIZE < msize m) :
    extract_images_from_archive rf d [m] st = (st, none) := by
  cases m with
  | nonfile a =>
    simp [extract_images_from_archive]
  | plain n sz =>
    simp only [misfile, mname, Bool.true_and] at hng
    simp only [msize] at hsz
    by_cases h1 : imageNamed n = true
    · rw [extract_images_from_archive, if_pos h1, if_neg (by omega)]
      simp [extract_images_from_archive]
    · rw [extract_images_from_archive, if_neg h1, if_neg (by simp [hng])]
      simp [extract_images_from_archive]
  | gzarc n sz inner =>
    simp only [misfile, mname, Bool.true_and] at hng
    simp only [msize] at hsz
    by_cases h1 : imageNamed n = true
    · rw [extract_images_from_archive, if_pos h1, if_neg (by omega)]
      simp [extract_images_from_archive]
    · rw [extract_images_from_archive, if_neg h1, if_neg (by simp [hng])]
      simp [extract_images_from_archive]

/-- C2: on a walk that completes without an exception, the number of output
files written — and the number of messages printed — equals exactly the
number of members that are regular files with a supported image extension
(lower-cased) and reported size at most `700*1024` bytes (`countQ`, counted
recursively through nested gzip members); so an output file is written for a
member exactly when it qualifies. Moreover a member whose reported size
exceeds the cap (and which is not a nested `.gz` container) is skipped
entirely: no output file, no log message, no error. -/
theorem C2_size_extension_filter :
    (∀ (rf : Str → Bool) (d : Str) (ms : List Member) (st st' : St),
        extract_images_from_archive rf d ms st = (st', none) →
        st'.outputs.length = st.outputs.length + countQ ms ∧
          st'.logs.length = st.logs.length + countQ ms) ∧
      ∀ (rf : Str → Bool) (d : Str) (m : Member) (st : St),
        (misfile m && gzNamed (mname m)) = false → MAX_FILE_SIZE < msize m →
        extract_images_from_archive rf d [m] st = (st, none) :=
  ⟨fun rf d ms st st' h => walk_counts rf d ms st st' h,
    fun rf d m st hng hsz => walk_oversized_skip rf d m st hng hsz⟩

/-- Witness for C2 on a concrete archive: a nested gzip tar with one 10 KiB
`.png` (qualifies) and one 800 KiB `.jpg` (oversized); the counts match
`countQ`, and the oversized `.jpg` alone is skipped with no state change. -/
theorem C2_witness :
    ((extract_images_from_archive noRemoveFail IMAGE_SAVE_DIR
        [Member.gzarc (str "a.gz") 5
          [Member.plain (str "x.png") (10 * 1024),
            Member.plain (str "big.jpg") (800 * 1024)]] st0).1.outputs.length =
        st0.outputs.length + countQ
          [Member.gzarc (str "a.gz") 5
            [Member.plain (str "x.png") (10 * 1024),
              Member.plain (str "big.jpg") (800 * 1024)]] ∧
      (extract_images_from_archive noRemoveFail IMAGE_SAVE_DIR
        [Member.gzarc (str "a.gz") 5
          [Member.plain (str "x.png") (10 * 1024),
            Member.plain (str "big.jpg") (800 * 1024)]] st0).1.logs.length =
        st0.logs.length + countQ
          [Member.gzarc (str "a.gz") 5
            [Member.plain (str "x.png") (10 * 1024),
              Member.plain (str "big.jpg") (800 * 1024)]]) ∧
      extract_images_from_archive noRemoveFail IMAGE_SAVE_DIR
        [Member.plain (str "big.jpg") (800 * 1024)] st0 = (st0, none) := by
  constructor
  · have h1 : (extract_images_from_archive noRemoveFail IMAGE_SAVE_DIR
        [Member.gzarc (str "a.gz") 5
          [Member.plain (str "x.png") (10 * 1024),
            Member.plain (str "big.jpg") (800 * 1024)]] st0) =
        ((extract_images_from_archive noRemoveFail IMAGE_SAVE_DIR
          [Member.gzarc (str "a.gz") 5
            [Member.plain (str "x.png") (10 * 1024),
              Member.plain (str "big.jpg") (800 * 1024)]] st0).1, none) := by
      simp +decide [extract_images_from_archive]
    exact C2_size_extension_filter.1 noRemoveFail IMAGE_SAVE_DIR _ st0 _ h1
  · exact C2_size_extension_filter.2 noRemoveFail IMAGE_SAVE_DIR
      (Member.plain (str "big.jpg") (800 * 1024)) st0 (by decide) (by decide)

theorem hexDigitChar_ne_dot (m : Nat) : hexDigitChar m ≠ '.' := by
  unfold hexDigitChar; split <;> decide

theorem hexN_length (k : Nat) : ∀ n, (hexN k n).length = k := by
  induction k with
  | zero => intro n; rfl
  | succ k ih => intro n; simp [hexN, ih]

theorem hexN_ne_dot (k : Nat) : ∀ n, '.' ∉ hexN k n := by
  induction k with
  | zero => intro n h; simp [hexN] at h
  | succ k ih =>
    intro n h
    simp only [hexN, List.mem_append, List.mem_singleton] at h
    rcases h with h | h
    · exact ih _ h
    · exact hexDigitChar_ne_dot _ h.symm

theorem hexVal_hexDigitChar : ∀ m, m < 16 → hexVal (hexDigitChar m) = m := by decide

theorem unhexL_append_digit (l : Str) (c : Char) :
    unhexL (l ++ [c]) = 16 * unhexL l + hexVal c := by
  unfold unhexL
  rw [List.foldl_append]
  rfl

theorem unhexL_hexN (k : Nat) : ∀ n, unhexL (hexN k n) = n % 16 ^ k := by
  induction k with
  | zero => intro n; simp [hexN, unhexL, Nat.mod_one]
  | succ k ih =>
    intro n
    rw [hexN, unhexL_append_digit, ih, hexVal_hexDigitChar _ (Nat.mod_lt _ (by norm_num))]
    have h16 : (16 : Nat) ^ (k + 1) = 16 * 16 ^ k := by ring
    rw [h16, Nat.mod_mul]
    ring

theorem hexN_inj (n1 n2 : Nat) (h1 : n1 < 16 ^ 32) (h2 : n2 < 16 ^ 32)
    (h : hexN 32 n1 = hexN 32 n2) : n1 = n2 := by
  have hu := congrArg unhexL h
  rw [unhexL_hexN, unhexL_hexN, Nat.mod_eq_of_lt h1, Nat.mod_eq_of_lt h2] at hu
  exact hu

theorem take_drop_decomp (h : Str) :
    h = h.take 8 ++ ((h.drop 8).take 4 ++ ((h.drop 12).take 4 ++
      ((h.drop 16).take 4 ++ h.drop 20))) := by
  have e8 : h.take 8 ++ h.drop 8 = h := List.take_append_drop 8 h
  have e12 : (h.drop 8).take 4 ++ h.drop 12 = h.drop 8 := by
    have := List.take_append_drop 4 (h.drop 8)
    rwa [List.drop_drop] at this
  have e16 : (h.drop 12).take 4 ++ h.drop 16 = h.drop 12 := by
    have := List.take_append_drop 4 (h.drop 12)
    rwa [List.drop_drop] at this
  have e20 : (h.drop 16).take 4 ++ h.drop 20 = h.drop 16 := by
    have := List.take_append_drop 4 (h.drop 16)
    rwa [List.drop_drop] at this
  rw [e20, e16, e12, e8]

theorem dashed_length (h : Str) (hl : h.length = 32) : (dashed h).length = 36 := by
  simp [dashed, List.length_take, List.length_drop, hl]

theorem dashed_ne_dot (h : Str) (hd : '.' ∉ h) : '.' ∉ dashed h := by
  intro hm
  unfold dashed at hm
  simp only [List.append_assoc, List.cons_append] at hm
  simp only [List.mem_append, List.mem_cons] at hm
  simp only [show (('.' : Char) = '-') = False by simp, false_or, or_false] at hm
  rcases hm with hm | hm | hm | hm | hm
  · exact hd (List.mem_of_mem_take hm)
  · exact hd (List.mem_of_mem_drop (List.mem_of_mem_take hm))
  · exact hd (List.mem_of_mem_drop (List.mem_of_mem_take hm))
  · exact hd (List.mem_of_mem_drop (List.mem_of_mem_take hm))
  · exact hd (List.mem_of_mem_drop hm)

theorem dashed_inj (a b : Str) (hla : a.length = 32) (hlb : b.length = 32)
    (h : dashed a = dashed b) : a = b := by
  unfold dashed at h
  simp only [List.append_assoc, List.cons_append] at h
  rcases List.append_inj h (by simp [List.length_take, hla, hlb]) with ⟨e0, h1⟩
  injection h1 with _ h1
  rcases List.append_inj h1 (by simp [List.length_take, List.length_drop, hla, hlb]) with
    ⟨e1, h2⟩
  injection h2 with _ h2
  rcases List.append_inj h2 (by simp [List.length_take, List.length_drop, hla, hlb]) with
    ⟨e2, h3⟩
  injection h3 with _ h3
  rcases List.append_inj h3 (by simp [List.length_take, List.length_drop, hla, hlb]) with
    ⟨e3, h4⟩
  injection h4 with _ e4
  rw [take_drop_decomp a, take_drop_decomp b, e0, e1, e2, e3, e4]

theorem uuidStr_length (n : Nat) : (uuidStr n).length = 36 :=
  dashed_length _ (hexN_length 32 n)

theorem uuidStr_ne_dot (n : Nat) : '.' ∉ uuidStr n :=
  dashed_ne_dot _ (hexN_ne_dot 32 n)

theorem uuidStr_inj (n1 n2 : Nat) (h1 : n1 < 16 ^ 32) (h2 : n2 < 16 ^ 32)
    (h : uuidStr n1 = uuidStr n2) : n1 = n2 :=
  hexN_inj n1 n2 h1 h2
    (dashed_inj _ _ (hexN_length 32 n1) (hexN_length 32 n2) h)

theorem takeWhile_append_all {p : Char → Bool} (l1 : Str) (l2 : Str)
    (h : ∀ x ∈ l1, p x = true) :
    (l1 ++ l2).takeWhile p = l1 ++ l2.takeWhile p := by
  induction l1 with
  | nil => simp
  | cons c cs ih =>
    simp only [List.cons_append]
    rw [List.takeWhile_cons_of_pos (h c (by simp))]
    rw [ih (fun x hx => h x (by simp [hx]))]

theorem dft_no_ext (b u : Str) (hu : u.length = 36) (hd : '.' ∉ u) :
    37 ≤ dotFreeTail (b ++ '_' :: u) := by
  unfold dotFreeTail
  rw [List.reverse_append, List.reverse_cons, List.append_assoc]
  rw [← List.append_assoc u.reverse ['_'] b.reverse]
  rw [takeWhile_append_all (u.reverse ++ ['_']) b.reverse ?hall]
  case hall =>
    intro x hx
    simp only [List.mem_append, List.mem_reverse, List.mem_singleton] at hx
    rcases hx with hx | hx
    · simp only [decide_eq_true_eq]
      intro he; rw [he] at hx; exact hd hx
    · simp [hx]
  simp only [List.length_append, List.length_reverse, List.length_singleton, hu]
  omega

theorem dft_ext (X t : Str) (ht : '.' ∉ t) :
    dotFreeTail (X ++ '.' :: t) = t.length := by
  unfold dotFreeTail
  rw [List.reverse_append, List.reverse_cons, List.append_assoc]
  rw [takeWhile_append_all t.reverse (['.'] ++ X.reverse) ?hall]
  case hall =>
    intro x hx
    simp only [List.mem_reverse] at hx
    simp only [decide_eq_true_eq]
    intro he; rw [he] at hx; exact ht hx
  rw [List.singleton_append, List.takeWhile_cons_of_neg (by simp)]
  simp

theorem name_core_inj (b1 u1 e1 b2 u2 e2 : Str)
    (he1 : extOKp e1) (he2 : extOKp e2)
    (hl1 : u1.length = 36) (hl2 : u2.length = 36)
    (hd1 : '.' ∉ u1) (hd2 : '.' ∉ u2)
    (h : (b1 ++ '_' :: u1) ++ e1 = (b2 ++ '_' :: u2) ++ e2) : u1 = u2 := by
  rcases he1 with he1 | ⟨t1, het1, hdt1, hlt1⟩ <;>
    rcases he2 with he2 | ⟨t2, het2, hdt2, hlt2⟩
  · subst he1; subst he2
    simp only [List.append_nil] at h
    have h2 := List.append_inj_right' h (by simp [hl1, hl2])
    injection h2
  · subst he1; subst het2
    have hd := congrArg dotFreeTail h
    simp only [List.append_nil] at hd
    rw [dft_ext _ _ hdt2] at hd
    have h37 := dft_no_ext b1 u1 hl1 hd1
    omega
  · subst he2; subst het1
    have hd := congrArg dotFreeTail h
    simp only [List.append_nil] at hd
    rw [dft_ext _ _ hdt1] at hd
    have h37 := dft_no_ext b2 u2 hl2 hd2
    omega
  · subst het1; subst het2
    have hd := congrArg dotFreeTail h
    rw [dft_ext _ _ hdt1, dft_ext _ _ hdt2] at hd
    rcases List.append_inj' h (by simp [hd]) with ⟨hX, _⟩
    have h2 := List.append_inj_right' hX (by simp [hl1, hl2])
    injection h2

theorem lowerChar_eq_dot (c : Char) (h : lowerChar c = '.') : c = '.' := by
  unfold lowerChar at h
  split at h <;> first | exact h | exact absurd h (by decide)

theorem lowerChar_eq_self_dot : lowerChar '.' = '.' := by decide

theorem lowerChar_eq_self_slash : lowerChar '/' = '/' := by decide

theorem splitext_ext_cases (s : Str) :
    (splitextList s).2 = [] ∨
      (splitextList s).2 =
        '.' :: (s.reverse.takeWhile (fun c => c ≠ '.')).reverse := by
  unfold splitextList
  simp only
  split
  · exact Or.inl rfl
  · split
    · exact Or.inl rfl
    · exact Or.inr rfl

theorem extOK_splitext (s : Str)
    (hshort : (s.reverse.takeWhile (fun c => c ≠ '.')).length < 36) :
    extOKp (splitextList s).2 := by
  rcases splitext_ext_cases s with h | h
  · exact Or.inl h
  · refine Or.inr ⟨_, h, ?_, ?_⟩
    · intro hm
      rw [List.mem_reverse] at hm
      have := List.mem_takeWhile_imp hm
      simp at this
    · simpa using hshort

theorem tail_len_aux (n : Str) (t0 : Str)
    (hsuf : ('.' :: t0).isSuffixOf (lowerL n) = true)
    (ht0 : ∀ x ∈ t0, x ≠ '.' ∧ x ≠ '/') :
    ((bname n).reverse.takeWhile (fun c => c ≠ '.')).length = t0.length := by
  rw [List.isSuffixOf_iff_suffix] at hsuf
  rcases hsuf with ⟨p, hp⟩
  have hmap : List.map lowerChar n = p ++ '.' :: t0 := hp.symm
  rw [List.map_eq_append_iff] at hmap
  rcases hmap with ⟨n1, n2, hn, hm1, hm2⟩
  rw [List.map_eq_cons_iff] at hm2
  rcases hm2 with ⟨c0, t2, hn2, hc0, hm2⟩
  have hc0' : c0 = '.' := lowerChar_eq_dot c0 hc0
  subst hc0'
  have ht2 : ∀ x ∈ t2, x ≠ '.' ∧ x ≠ '/' := by
    intro x hx
    have hlx : lowerChar x ∈ t0 := by
      rw [← hm2]; exact List.mem_map_of_mem lowerChar hx
    rcases ht0 _ hlx with ⟨hd, hs⟩
    constructor
    · intro he; rw [he, lowerChar_eq_self_dot] at hlx
      rcases ht0 _ hlx with ⟨hd2, _⟩
      exact hd2 rfl
    · intro he; rw [he, lowerChar_eq_self_slash] at hlx
      rcases ht0 _ hlx with ⟨_, hs2⟩
      exact hs2 rfl
  have hbn : (bname n).reverse = n.reverse.takeWhile (fun c => c ≠ '/') := by
    unfold bname; rw [List.reverse_reverse]
  have hnrev : n.reverse = t2.reverse ++ '.' :: n1.reverse := by
    rw [hn, hn2]
    simp [List.reverse_append, List.reverse_cons, List.append_assoc]
  have hslash : ∀ x ∈ t2.reverse, (fun c => decide (c ≠ '/')) x = true := by
    intro x hx
    rw [List.mem_reverse] at hx
    simp [(ht2 x hx).2]
  have hdot : ∀ x ∈ t2.reverse, (fun c => decide (c ≠ '.')) x = true := by
    intro x hx
    rw [List.mem_reverse] at hx
    simp [(ht2 x hx).1]
  rw [hbn, hnrev, takeWhile_append_all t2.reverse _ hslash,
    List.takeWhile_cons_of_pos (by decide)]
  rw [takeWhile_append_all t2.reverse _ hdot,
    List.takeWhile_cons_of_neg (by simp)]
  have hlen : t2.length = t0.length := by rw [← hm2]; simp
  simp [hlen]

theorem dft_bname_lt (n : Str) (h : imageNamed n = true) :
    ((bname n).reverse.takeWhile (fun c => c ≠ '.')).length < 36 := by
  unfold imageNamed SUPPORTED_IMAGE_FORMATS at h
  simp only [List.any_cons, List.any_nil, Bool.or_eq_true, Bool.or_false] at h
  rcases h with h | h | h | h
  · rw [tail_len_aux n (str "png") h (by decide)]; decide
  · rw [tail_len_aux n (str "jpg") h (by decide)]; decide
  · rw [tail_len_aux n (str "jpeg") h (by decide)]; decide
  · rw [tail_len_aux n (str "gif") h (by decide)]; decide

theorem extOK_of_imageNamed (n : Str) (h : imageNamed n = true) :
    extOKp (splitextList (bname n)).2 :=
  extOK_splitext _ (dft_bname_lt n h)

theorem genU_inj_counter (d o1 o2 : Str) (k1 k2 : Nat)
    (hk1 : k1 < 16 ^ 32) (hk2 : k2 < 16 ^ 32)
    (he1 : extOKp (splitextList o1).2) (he2 : extOKp (splitextList o2).2)
    (h : generate_unique_filename d o1 k1 = generate_unique_filename d o2 k2) :
    k1 = k2 := by
  unfold generate_unique_filename pyJoin at h
  have h2 := List.append_cancel_left h
  injection h2 with _ h3
  have h4 : ((splitextList o1).1 ++ '_' :: uuidStr k1) ++ (splitextList o1).2 =
      ((splitextList o2).1 ++ '_' :: uuidStr k2) ++ (splitextList o2).2 := by
    simpa [List.append_assoc] using h3
  exact uuidStr_inj k1 k2 hk1 hk2
    (name_core_inj _ _ _ _ _ _ he1 he2 (uuidStr_length k1) (uuidStr_length k2)
      (uuidStr_ne_dot k1) (uuidStr_ne_dot k2) h4)

@[simp] theorem counter_addLog (m : Str) (st : St) : (addLog m st).counter = st.counter := rfl

@[simp] theorem counter_addOutput (p : Str) (st : St) :
    (addOutput p st).counter = st.counter := rfl

@[simp] theorem counter_addTemp (p : Str) (st : St) : (addTemp p st).counter = st.counter := rfl

@[simp] theorem counter_delTemp (p : Str) (st : St) : (delTemp p st).counter = st.counter := rfl

@[simp] theorem counter_bump (st : St) : (bump st).counter = st.counter + 1 := rfl

theorem walk_counter_mono (rf : Str → Bool) (d : Str) :
    ∀ (ms : List Member) (st : St),
      st.counter ≤ (extract_images_from_archive rf d ms st).1.counter := by
  intro ms st
  induction ms, st using extract_images_from_archive.induct rf d with
  | case1 st => simp [extract_images_from_archive]
  | case2 a rest st ih => simpa [extract_images_from_archive] using ih
  | case3 n sz rest st h1 h2 p ih =>
    rw [extract_images_from_archive, if_pos h1, if_pos h2]
    show st.counter ≤ (extract_images_from_archive rf d rest
      (addLog (msgExtracted p) (addOutput p (bump st)))).1.counter
    have hc : (addLog (msgExtracted p) (addOutput p (bump st))).counter =
        st.counter + 1 := rfl
    omega
  | case4 n sz rest st h1 h2 ih =>
    rw [extract_images_from_archive, if_pos h1, if_neg h2]
    exact ih
  | case5 n sz rest st h1 h2 =>
    rw [extract_images_from_archive, if_neg h1, if_pos h2]
    show st.counter ≤ (addTemp (generate_unique_filename d (bname n) st.counter)
      (bump st), some errGzOpen).1.counter
    simp
  | case6 n sz rest st h1 h2 ih =>
    rw [extract_images_from_archive, if_neg h1, if_neg h2]
    exact ih
  | case7 n sz inner rest st h1 h2 p ih =>
    rw [extract_images_from_archive, if_pos h1, if_pos h2]
    show st.counter ≤ (extract_images_from_archive rf d rest
      (addLog (msgExtracted p) (addOutput p (bump st)))).1.counter
    have hc : (addLog (msgExtracted p) (addOutput p (bump st))).counter =
        st.counter + 1 := rfl
    omega
  | case8 n sz inner rest st h1 h2 ih =>
    rw [extract_images_from_archive, if_pos h1, if_neg h2]
    exact ih
  | case9 n sz inner rest st h1 h2 p st1 st2 e hrec ih =>
    rw [extract_images_from_archive, if_neg h1, if_pos h2]
    simp only [hrec]
    show st.counter ≤ st2.counter
    rw [hrec] at ih
    have hst1 : st1.counter = st.counter + 1 := rfl
    simp only at ih
    omega
  | case10 n sz inner rest st h1 h2 p st1 st2 hrec hrf ih =>
    rw [extract_images_from_archive, if_neg h1, if_pos h2]
    simp only [hrec, hrf, if_true]
    show st.counter ≤ st2.counter
    rw [hrec] at ih
    have hst1 : st1.counter = st.counter + 1 := rfl
    simp only at ih
    omega
  | case11 n sz inner rest st h1 h2 p st1 st2 hrec hrf ih1 ih2 =>
    rw [extract_images_from_archive, if_neg h1, if_pos h2]
    show st.counter ≤ (match extract_images_from_archive rf d inner st1 with
      | (st2, some e) => (st2, some e)
      | (st2, none) =>
        if rf p = true then (st2, some (errRemove p))
        else extract_images_from_archive rf d rest (delTemp p st2)).1.counter
    rw [hrec]
    dsimp only
    rw [if_neg hrf]
    rw [hrec] at ih1
    simp only at ih1
    have hst1 : st1.counter = st.counter + 1 := rfl
    have hdel : (delTemp p st2).counter = st2.counter := rfl
    omega
  | case12 n sz inner rest st h1 h2 ih =>
    rw [extract_images_from_archive, if_neg h1, if_neg h2]
    exact ih

theorem InvC6_transport (d : Str) (st st' : St) (ho : st'.outputs = st.outputs)
    (hc : st.counter ≤ st'.counter) (h : InvC6 d st) : InvC6 d st' := by
  refine ⟨ho ▸ h.1, ?_⟩
  intro p hp
  rw [ho] at hp
  rcases h.2 p hp with ⟨o, k, he, hk, hp'⟩
  exact ⟨o, k, he, lt_of_lt_of_le hk hc, hp'⟩

theorem InvC6_write (d : Str) (st : St) (n : Str) (hn : imageNamed n = true)
    (hcb : st.counter < 16 ^ 32) (h : InvC6 d st) :
    InvC6 d (addLog (msgExtracted (generate_unique_filename d (bname n) st.counter))
      (addOutput (generate_unique_filename d (bname n) st.counter) (bump st))) := by
  constructor
  · have hne : generate_unique_filename d (bname n) st.counter ∉ st.outputs := by
      intro hq
      rcases h.2 _ hq with ⟨o, k, he, hk, hp'⟩
      have := genU_inj_counter d o (bname n) k st.counter
        (lt_trans hk hcb) hcb he (extOK_of_imageNamed n hn) hp'.symm
      omega
    simp only [outputs_addLog, outputs_addOutput]
    simp [List.nodup_append, h.1, hne]
  · intro p hp
    simp only [outputs_addLog, outputs_addOutput, List.mem_append,
      List.mem_singleton] at hp
    simp only [counter_addLog, counter_addOutput, counter_bump]
    rcases hp with hp | hp
    · rcases h.2 p hp with ⟨o, k, he, hk, hp'⟩
      exact ⟨o, k, he, by omega, hp'⟩
    · exact ⟨bname n, st.counter, extOK_of_imageNamed n hn, by omega, hp⟩

theorem walk_InvC6 (rf : Str → Bool) (d : Str) :
    ∀ (ms : List Member) (st : St),
      (extract_images_from_archive rf d ms st).1.counter ≤ 16 ^ 32 →
      InvC6 d st → InvC6 d (extract_images_from_archive rf d ms st).1 := by
  intro ms st
  induction ms, st using extract_images_from_archive.induct rf d with
  | case1 st =>
    intro hb hi
    simpa [extract_images_from_archive] using hi
  | case2 a rest st ih =>
    intro hb hi
    rw [extract_images_from_archive] at hb ⊢
    exact ih hb hi
  | case3 n sz rest st h1 h2 p ih =>
    intro hb hi
    rw [extract_images_from_archive, if_pos h1, if_pos h2] at hb ⊢
    have hb' : (extract_images_from_archive rf d rest
        (addLog (msgExtracted p) (addOutput p (bump st)))).1.counter ≤ 16 ^ 32 := hb
    have hcb : st.counter < 16 ^ 32 := by
      have hm := walk_counter_mono rf d rest
        (addLog (msgExtracted p) (addOutput p (bump st)))
      have hc : (addLog (msgExtracted p) (addOutput p (bump st))).counter =
          st.counter + 1 := rfl
      omega
    show InvC6 d (extract_images_from_archive rf d rest
      (addLog (msgExtracted p) (addOutput p (bump st)))).1
    exact ih hb' (InvC6_write d st n h1 hcb hi)
  | case4 n sz rest st h1 h2 ih =>
    intro hb hi
    rw [extract_images_from_archive, if_pos h1, if_neg h2] at hb ⊢
    exact ih hb hi
  | case5 n sz rest st h1 h2 =>
    intro hb hi
    rw [extract_images_from_archive, if_neg h1, if_pos h2]
    show InvC6 d (addTemp (generate_unique_filename d (bname n) st.counter)
      (bump st), some errGzOpen).1
    exact InvC6_transport d st _ rfl (by simp) hi
  | case6 n sz rest st h1 h2 ih =>
    intro hb hi
    rw [extract_images_from_archive, if_neg h1, if_neg h2] at hb ⊢
    exact ih hb hi
  | case7 n sz inner rest st h1 h2 p ih =>
    intro hb hi
    rw [extract_images_from_archive, if_pos h1, if_pos h2] at hb ⊢
    have hb' : (extract_images_from_archive rf d rest
        (addLog (msgExtracted p) (addOutput p (bump st)))).1.counter ≤ 16 ^ 32 := hb
    have hcb : st.counter < 16 ^ 32 := by
      have hm := walk_counter_mono rf d rest
        (addLog (msgExtracted p) (addOutput p (bump st)))
      have hc : (addLog (msgExtracted p) (addOutput p (bump st))).counter =
          st.counter + 1 := rfl
      omega
    show InvC6 d (extract_images_from_archive rf d rest
      (addLog (msgExtracted p) (addOutput p (bump st)))).1
    exact ih hb' (InvC6_write d st n h1 hcb hi)
  | case8 n sz inner rest st h1 h2 ih =>
    intro hb hi
    rw [extract_images_from_archive, if_pos h1, if_neg h2] at hb ⊢
    exact ih hb hi
  | case9 n sz inner rest st h1 h2 p st1 st2 e hrec ih =>
    intro hb hi
    rw [extract_images_from_archive, if_neg h1, if_pos h2] at hb ⊢
    simp only [hrec] at hb ⊢
    show InvC6 d st2
    have hb1 : (extract_images_from_archive rf d inner st1).1.counter ≤ 16 ^ 32 := by
      rw [hrec]; exact hb
    have hi1 : InvC6 d st1 := InvC6_transport d st st1 rfl (Nat.le_succ st.counter) hi
    have h2 := ih hb1 hi1
    rw [hrec] at h2
    exact h2
  | case10 n sz inner rest st h1 h2 p st1 st2 hrec hrf ih =>
    intro hb hi
    rw [extract_images_from_archive, if_neg h1, if_pos h2] at hb ⊢
    simp only [hrec, hrf, if_true] at hb ⊢
    show InvC6 d st2
    have hb1 : (extract_images_from_archive rf d inner st1).1.counter ≤ 16 ^ 32 := by
      rw [hrec]; exact hb
    have hi1 : InvC6 d st1 := InvC6_transport d st st1 rfl (Nat.le_succ st.counter) hi
    have h2 := ih hb1 hi1
    rw [hrec] at h2
    exact h2
  | case11 n sz inner rest st h1 h2 p st1 st2 hrec hrf ih1 ih2 =>
    intro hb hi
    rw [extract_images_from_archive, if_neg h1, if_pos h2] at hb ⊢
    have hb' : (match extract_images_from_archive rf d inner st1 with
        | (st2, some e) => (st2, some e)
        | (st2, none) =>
          if rf p = true then (st2, some (errRemove p))
          else extract_images_from_archive rf d rest (delTemp p st2)).1.counter ≤
        16 ^ 32 := hb
    rw [hrec] at hb'
    dsimp only at hb'
    rw [if_neg hrf] at hb'
    show InvC6 d (match extract_images_from_archive rf d inner st1 with
      | (st2, some e) => (st2, some e)
      | (st2, none) =>
        if rf p = true then (st2, some (errRemove p))
        else extract_images_from_archive rf d rest (delTemp p st2)).1
    rw [hrec]
    dsimp only
    rw [if_neg hrf]
    have hb1 : (extract_images_from_archive rf d inner st1).1.counter ≤ 16 ^ 32 := by
      rw [hrec]
      have hm := walk_counter_mono rf d rest (delTemp p st2)
      have hdel : (delTemp p st2).counter = st2.counter := rfl
      simp only at hm ⊢
      omega
    have hi1 : InvC6 d st1 := InvC6_transport d st st1 rfl (Nat.le_succ st.counter) hi
    have hi2 := ih1 hb1 hi1
    rw [hrec] at hi2
    have hi3 : InvC6 d (delTemp p st2) := InvC6_transport d st2 _ rfl (by simp) hi2
    exact ih2 hb' hi3
  | case12 n sz inner rest st h1 h2 ih =>
    intro hb hi
    rw [extract_images_from_archive, if_neg h1, if_neg h2] at hb ⊢
    exact ih hb hi

/-- C6: in a run of the archive walker started with no outputs, every
extracted image file is written directly in the output directory under a name
of the form `<original-stem>_<uuid><original-extension>` (flat — the
generated name is joined once onto `save_dir`), and the generated output
paths are pairwise distinct, even for members with identical base names.
The bound on the final uuid counter reflects the model of `uuid.uuid4`:
distinct calls yield distinct 122-bit-random identifiers, modelled by the
call counter running below `16^32`. -/
theorem C6_unique_output_names (rf : Str → Bool) (d : Str) (ms : List Member)
    (c : Nat) (tmps lgs : List Str)
    (hb : (extract_images_from_archive rf d ms ⟨c, tmps, [], lgs⟩).1.counter ≤ 16 ^ 32) :
    (extract_images_from_archive rf d ms ⟨c, tmps, [], lgs⟩).1.outputs.Nodup ∧
      ∀ p ∈ (extract_images_from_archive rf d ms ⟨c, tmps, [], lgs⟩).1.outputs,
        ∃ o k, p = pyJoin d
          ((splitextList o).1 ++ '_' :: uuidStr k ++ (splitextList o).2) := by
  have h := walk_InvC6 rf d ms ⟨c, tmps, [], lgs⟩ hb
    ⟨List.nodup_nil, by intro p hp; cases hp⟩
  refine ⟨h.1, ?_⟩
  intro p hp
  rcases h.2 p hp with ⟨o, k, _, _, hp'⟩
  exact ⟨o, k, by rw [hp']; rfl⟩

/-- Witness for C6: two members with the identical base name `a.png` yield
two distinct output paths of the generated form. -/
theorem C6_witness :
    (extract_images_from_archive noRemoveFail IMAGE_SAVE_DIR
        [Member.plain (str "a.png") 10, Member.plain (str "a.png") 10]
        ⟨0, [], [], []⟩).1.outputs.Nodup ∧
      ∀ p ∈ (extract_images_from_archive noRemoveFail IMAGE_SAVE_DIR
          [Member.plain (str "a.png") 10, Member.plain (str "a.png") 10]
          ⟨0, [], [], []⟩).1.outputs,
        ∃ o k, p = pyJoin IMAGE_SAVE_DIR
          ((splitextList o).1 ++ '_' :: uuidStr k ++ (splitextList o).2) := by
  apply C6_unique_output_names
  have hc : (extract_images_from_archive noRemoveFail IMAGE_SAVE_DIR
      [Member.plain (str "a.png") 10, Member.plain (str "a.png") 10]
      ⟨0, [], [], []⟩).1.counter = 2 := by
    simp +decide [extract_images_from_archive]
  rw [hc]
  decide
